import Mathlib

/-!
Shallow embedding of the awooter router core
(`src/common/route/awooter/src/lib.rs`) together with spec-modelled
definitions for the `partition` and `route` Rust modules that the file
calls but that are not part of the visible sources.

Machine integers (`i32` grid coordinates) are modelled as `Int`;
identifier handles (`IdString`, `WireId`, net indices) as `Nat`;
fallible code (Rust `unwrap`, i.e. panics) as `Except String`.
-/

namespace Awooter

/-- Grid coordinate (`partition::Coord`): integer (x, y) grid position. -/
structure Coord where
  x : Int
  y : Int
deriving DecidableEq, Repr

/-- Arc (`route::Arc`) as constructed by `Arc::new(source_wire, source, sink_wire,
sink, net.index(), nets.name_from_index(net.index()))` in
`extract_arcs_from_nets`. -/
structure Arc where
  source_wire : Nat
  source : Coord
  sink_wire : Nat
  sink : Coord
  net : Nat
  net_name : String
deriving DecidableEq, Repr

/-- A sink (`PortRef`): an identifying pin handle plus the location of the
attached cell, when one is attached (`PortRef::cell` is an `Option`). -/
structure PortRef where
  pin : Nat
  cell : Option Coord
deriving DecidableEq, Repr

/-- One `NetInfo` as seen through the queries `extract_arcs_from_nets` and
`route` make: the global flag, the driver port reference (a raw pointer that
may be null, hence `Option`; the port itself again optionally carries a
cell), and the net's `udata` index. -/
structure Net where
  is_global : Bool
  driver : Option PortRef
  index : Nat
deriving DecidableEq, Repr

/-- Net table (`npnr::Nets`): the liberated net table. `nets` is the iteration sequence
of the `HashMap` (name, net) entries — iteration order of a Rust `HashMap`
is arbitrary, which is why it is part of this structure rather than
canonical. `users` models `users_by_name` (total here: the map is built
with one entry per net name). -/
structure Nets where
  nets : List (Nat × Net)
  users : Nat → List PortRef
  name_from_index : Nat → String

/-- The host context (`npnr::Context`) restricted to the queries the router
core performs. All queries are read-only. `name_of_wire` is modelled as a
total map to strings. -/
structure Ctx where
  grid_dim_x : Int
  grid_dim_y : Int
  source_wire : Nat → Nat
  sink_wires : Nat → PortRef → List Nat
  name_of_wire : Nat → String

/-! ## Arc extraction (`extract_arcs_from_nets`, lib.rs lines 77–119) -/

/-- The inner sink loop of `extract_arcs_from_nets`: for each user
(`sink_ref`) the code does `sink_ref.cell().unwrap()` — a panic when the
sink has no attached cell — and then pushes one arc per candidate sink wire
of `ctx.sink_wires(&net, sink_ref)`. -/
def extract_sinks (ctx : Ctx) (name : Nat) (src_wire : Nat) (src : Coord)
    (idx : Nat) (net_name : String) : List PortRef → Except String (List Arc)
  | [] => .ok []
  | sink_ref :: rest =>
    match sink_ref.cell with
    | none => .error ("called Option::unwrap on a None value (sink cell)")
    | some sink_loc =>
      match extract_sinks ctx name src_wire src idx net_name rest with
      | .error e => .error e
      | .ok tail =>
        .ok (((ctx.sink_wires name sink_ref).map fun w =>
          Arc.mk src_wire src w sink_loc idx net_name) ++ tail)

/-- The per-net body of the loop in `extract_arcs_from_nets`: global nets
are skipped; `net.driver()` is a raw pointer unwrapped with
`port_ref.as_ref().unwrap()` (panic when null); a driver port without a
cell (`if let Some(cell)`) silently contributes no arcs. -/
def extract_net (ctx : Ctx) (nets : Nets) (name : Nat) (net : Net) :
    Except String (List Arc) :=
  if net.is_global then .ok []
  else
    match net.driver with
    | none => .error ("called Option::unwrap on a None value (driver port)")
    | some port_ref =>
      match port_ref.cell with
      | none => .ok []
      | some source =>
        extract_sinks ctx name (ctx.source_wire name) source net.index
          (nets.name_from_index net.index) (nets.users name)

/-- The fold of `extract_net` over the net-table iteration sequence. -/
def extract_go (ctx : Ctx) (nets : Nets) : List (Nat × Net) →
    Except String (List Arc)
  | [] => .ok []
  | e :: rest =>
    match extract_net ctx nets e.1 e.2 with
    | .error msg => .error msg
    | .ok here =>
      match extract_go ctx nets rest with
      | .error msg => .error msg
      | .ok tail => .ok (here ++ tail)

/-- Extraction entry (`extract_arcs_from_nets(ctx, nets)`): one pass over all nets, collecting
arcs in iteration order. -/
def extract_arcs_from_nets (ctx : Ctx) (nets : Nets) :
    Except String (List Arc) :=
  extract_go ctx nets nets.nets

/-- The arc list one sink pin contributes on the successful path: one arc
per candidate sink wire of that pin. -/
def sink_arcs (ctx : Ctx) (name : Nat) (src_wire : Nat) (src : Coord)
    (idx : Nat) (net_name : String) (s : PortRef) : List Arc :=
  match s.cell with
  | none => []
  | some sink_loc =>
    (ctx.sink_wires name s).map fun w =>
      Arc.mk src_wire src w sink_loc idx net_name

/-- The arc list one passing net contributes (the successful-path value of
`extract_net`). -/
def arcs_of_net (ctx : Ctx) (nets : Nets) (e : Nat × Net) : List Arc :=
  if e.2.is_global then []
  else
    match e.2.driver with
    | none => []
    | some port_ref =>
      match port_ref.cell with
      | none => []
      | some source =>
        (nets.users e.1).flatMap
          (sink_arcs ctx e.1 (ctx.source_wire e.1) source e.2.index
            (nets.name_from_index e.2.index))

/-- The unwrap precondition for one net entry: non-global nets need a
non-null driver pointer, and when the driver port has an attached cell,
every sink pin of the net must have one too. -/
def net_passes (nets : Nets) (e : Nat × Net) : Prop :=
  e.2.is_global = false →
    ∃ port_ref, e.2.driver = some port_ref ∧
      (∀ loc, port_ref.cell = some loc →
        ∀ s ∈ nets.users e.1, s.cell ≠ none)

/-! ## Reserved-pattern pre-filtering (lib.rs lines 214–231) -/

/-- Substring occurrence on character lists (Rust `str::contains(&str)`). -/
def list_has_sub (needle : List Char) : List Char → Bool
  | [] => needle.isEmpty
  | c :: t => List.isPrefixOf needle (c :: t) || list_has_sub needle t

/-- Model of Rust `str::contains(&str)` (substring anywhere). -/
def str_has_sub (hay needle : String) : Bool :=
  list_has_sub needle.toList hay.toList

/-- Model of Rust `str::contains(char)`. -/
def str_has_char (hay : String) (c : Char) : Bool :=
  hay.toList.contains c

/-- The special-casing condition of the pre-filter loop in `route`:
`src_name.contains("FCO_SLICE") || src_name.contains("Q6_SLICE") ||
src_name.contains('J') || src_name.contains("DDR") ||
dst_name.contains("DDR") || dst_name.contains("X126/Y20/PADDOD_PIO")`.
Note the asymmetry: the first four patterns are tested against the source
wire name only, the last one against the sink wire name only. -/
def is_special_arc (ctx : Ctx) (a : Arc) : Bool :=
  let src_name := ctx.name_of_wire a.source_wire
  let dst_name := ctx.name_of_wire a.sink_wire
  str_has_sub src_name ("FCO_SLICE") || str_has_sub src_name ("Q6_SLICE") ||
    str_has_char src_name ('J') || str_has_sub src_name ("DDR") ||
    str_has_sub dst_name ("DDR") || str_has_sub dst_name ("X126/Y20/PADDOD_PIO")

/-- The pre-filter loop of `route`: every extracted arc is pushed onto
either `special_arcs` or `partitionable_arcs`, preserving order. Returns
(special_arcs, partitionable_arcs). -/
def pre_filter (ctx : Ctx) : List Arc → List Arc × List Arc
  | [] => ([], [])
  | a :: rest =>
    if is_special_arc ctx a then
      (a :: (pre_filter ctx rest).1, (pre_filter ctx rest).2)
    else
      ((pre_filter ctx rest).1, a :: (pre_filter ctx rest).2)

/-- The symmetric reading of the spec's reserved-pattern rule: a wire name
matching any one of the five configured patterns. Stated from the spec's
words for comparison with `is_special_arc`, which applies the patterns
positionally. -/
def matches_reserved_pattern (s : String) : Bool :=
  str_has_sub s ("FCO_SLICE") || str_has_sub s ("Q6_SLICE") ||
    str_has_char s ('J') || str_has_sub s ("DDR") ||
    str_has_sub s ("X126/Y20/PADDOD_PIO")

/-! ## The spatial partitioner

`partition::find_partition_point_and_sanity_check` lives in
`partition.rs`, which is not among the visible sources; it is modelled
from the spec below. -/

/-- The four quadrant labels. Following the box construction in `route`
(lib.rs lines 253–266), NE is the quadrant with both coordinates below the
split point, SE the one with x above and y below, SW both above, NW x
below and y above. -/
inductive Quad where
  | ne | se | sw | nw
deriving DecidableEq, Repr

/-- Quadrant of a point strictly inside one quadrant relative to the split
point; a point on a split line belongs to no quadrant. -/
def quad_of (xp yp : Int) (c : Coord) : Option Quad :=
  if c.x < xp then
    if c.y < yp then some .ne else if yp < c.y then some .nw else none
  else if xp < c.x then
    if c.y < yp then some .se else if yp < c.y then some .sw else none
  else none

/-- Classification of one arc: both endpoints strictly within the same
quadrant relative to the split point assigns the arc to that quadrant;
anything else (straddling arcs, endpoints on a split line) is special
(`none`). -/
def arc_quad (xp yp : Int) (a : Arc) : Option Quad :=
  match quad_of xp yp a.source, quad_of xp yp a.sink with
  | some q, some q2 => if q = q2 then some q else none
  | _, _ => none

/-- Result of one partitioning step, in the tuple order of the Rust call
`(x_part, y_part, ne, se, sw, nw, special)`. -/
structure PartitionResult where
  x_part : Int
  y_part : Int
  ne : List Arc
  se : List Arc
  sw : List Arc
  nw : List Arc
  special : List Arc
deriving Repr

/-- Modelled from the spec: `partition::find_partition_point_and_sanity_check`
(partition.rs, not under the visible sources). Per §4.2 the partitioner
chooses a split point within the box (a tunable policy — modelled as the
geometric center) and classifies every input arc: same strict quadrant for
both endpoints → that quadrant list, otherwise the special list. The
sanity check against the wire/pip geometry is a fatal assertion with no
effect on the returned value and is not modelled; the `ctx`/`nets`/`pips`
arguments of the Rust function are therefore dropped. -/
def find_partition_point_and_sanity_check (x_start x_finish y_start y_finish : Int)
    (arcs : List Arc) : PartitionResult :=
  let xp := (x_start + x_finish) / 2
  let yp := (y_start + y_finish) / 2
  { x_part := xp
    y_part := yp
    ne := arcs.filter fun a => arc_quad xp yp a = some .ne
    se := arcs.filter fun a => arc_quad xp yp a = some .se
    sw := arcs.filter fun a => arc_quad xp yp a = some .sw
    nw := arcs.filter fun a => arc_quad xp yp a = some .nw
    special := arcs.filter fun a => arc_quad xp yp a = none }

/-! ## The two-level dispatch loop of `route` (lib.rs lines 237–269) -/

/-- One entry of the `partitions` worklist in `route`: bounding box
(min, max), arc list, hierarchical name. -/
structure PartEntry where
  pmin : Coord
  pmax : Coord
  arcs : List Arc
  name : String
deriving DecidableEq, Repr

/-- The body of the inner loop of the dispatch: partition one entry and
push the four children in the order of the Rust code (SE, SW, NE, NW),
with the child boxes exactly as constructed there; returns the children
and the special arcs this step contributed. -/
def step_entry (e : PartEntry) : List PartEntry × List Arc :=
  let r := find_partition_point_and_sanity_check e.pmin.x e.pmax.x e.pmin.y e.pmax.y e.arcs
  ([ ⟨⟨r.x_part, e.pmin.y⟩, ⟨e.pmax.x, r.y_part⟩, r.se, e.name ++ "_SE"⟩,
     ⟨⟨r.x_part, r.y_part⟩, e.pmax, r.sw, e.name ++ "_SW"⟩,
     ⟨e.pmin, ⟨r.x_part, r.y_part⟩, r.ne, e.name ++ "_NE"⟩,
     ⟨⟨e.pmin.x, r.y_part⟩, ⟨r.x_part, e.pmax.y⟩, r.nw, e.name ++ "_NW"⟩ ],
   r.special)

/-- One pass of the inner loop over the whole worklist, collecting all new
partitions and all new special arcs in order. -/
def step_partitions : List PartEntry → List PartEntry × List Arc
  | [] => ([], [])
  | e :: rest =>
    ((step_entry e).1 ++ (step_partitions rest).1,
     (step_entry e).2 ++ (step_partitions rest).2)

/-- Dispatch loop (`for _ in 0..n` in `route`): each round replaces the worklist by
the children of all its entries and extends the accumulated special list. -/
def dispatch_loop : Nat → List PartEntry → List Arc → List PartEntry × List Arc
  | 0, ps, sp => (ps, sp)
  | n + 1, ps, sp =>
    dispatch_loop n (step_partitions ps).1 (sp ++ (step_partitions ps).2)

/-- The partitioning phase of `route`: one root entry covering the grid
box (0,0)–(grid_dim_x, grid_dim_y) with the pre-filtered partitionable
arcs and name `""`, then two rounds of the dispatch loop; `special0` is
the special list produced by the pre-filter. -/
def route_partitions (grid_dim_x grid_dim_y : Int)
    (special0 partitionable : List Arc) : List PartEntry × List Arc :=
  dispatch_loop 2 [⟨⟨0, 0⟩, ⟨grid_dim_x, grid_dim_y⟩, partitionable, ""⟩] special0

/-! ## Child-box geometry (lib.rs lines 253–266) -/

/-- Closed-box membership: componentwise min ≤ point ≤ max. -/
def in_box (bmin bmax c : Coord) : Prop :=
  bmin.x ≤ c.x ∧ c.x ≤ bmax.x ∧ bmin.y ≤ c.y ∧ c.y ≤ bmax.y

/-- Open-box (interior) membership. -/
def in_box_interior (bmin bmax c : Coord) : Prop :=
  bmin.x < c.x ∧ c.x < bmax.x ∧ bmin.y < c.y ∧ c.y < bmax.y

/-- Box area. -/
def box_area (bmin bmax : Coord) : Int :=
  (bmax.x - bmin.x) * (bmax.y - bmin.y)

/-- The four child boxes created by the dispatch loop for a parent box
[pmin, pmax] split at (xp, yp), in push order SE, SW, NE, NW, copied from
the tuples in lib.rs lines 253–266. -/
def child_boxes (pmin pmax : Coord) (xp yp : Int) : List (Coord × Coord) :=
  [ (⟨xp, pmin.y⟩, ⟨pmax.x, yp⟩),
    (⟨xp, yp⟩, pmax),
    (pmin, ⟨xp, yp⟩),
    (⟨pmin.x, yp⟩, ⟨xp, pmax.y⟩) ]

/-! ## Router cost model -/

/-- Per-resource congestion counters (spec §3 RoutingResourceState). -/
structure ResourceState where
  current_usage : Nat
  historical_congestion : Nat
deriving DecidableEq, Repr

/-- Modelled from the spec: the cost function of the negotiated-congestion
router (`route.rs`, not under the visible sources): `base_delay(r) +
pressure_factor * current_usage(r) + history_factor *
historical_congestion(r)` (§4.3). The two `f32` weights and the delay are
modelled as rationals. -/
def resource_cost (pressure_factor history_factor base_delay : ℚ)
    (r : ResourceState) : ℚ :=
  base_delay + pressure_factor * (r.current_usage : ℚ) +
    history_factor * (r.historical_congestion : ℚ)

/-! ## The `route` pipeline and the entry point (lib.rs lines 20–75, 121–325) -/

/-- Model of Rust `Iterator::max_by_key`: `none` on an empty iterator, and when
several elements have the maximal key the last one is returned. -/
def max_by_key {α : Type} (f : α → Nat) : List α → Option α
  | [] => none
  | a :: rest =>
    match max_by_key f rest with
    | none => some a
    | some b => some (if f b < f a then a else b)

/-- The key of the `max_by_key` fanout scan in `route` (lib.rs lines
157–168): 0 for a global net, otherwise the total number of candidate
sink wires over all users. -/
def fanout_key (ctx : Ctx) (nets : Nets) (e : Nat × Net) : Nat :=
  if e.2.is_global then 0
  else ((nets.users e.1).map fun s => (ctx.sink_wires e.1 s).length).sum

/-- The result-relevant behaviour of `route` (lib.rs lines 121–325):
logging and timing are omitted; the fanout scan can panic via
`max_by_key(..).unwrap()` on an empty net table; the span computation for
the highest-fanout net unwraps every user's cell (line 190); then arc
extraction, the reserved-pattern pre-filter, and the two-round dispatch
loop run; the parallel router workers and the final serial special pass
mutate only congestion state (their return values are discarded, and
`route.rs` is not among the visible sources), after which the function
returns `true` unconditionally (line 324). -/
def route_result (ctx : Ctx) (nets : Nets) (pressure history : ℚ) :
    Except String Bool :=
  match max_by_key (fanout_key ctx nets) nets.nets with
  | none => .error ("called Option::unwrap on a None value (max_by_key)")
  | some e =>
    if (nets.users e.1).all fun s => s.cell.isSome then
      match extract_arcs_from_nets ctx nets with
      | .error msg => .error msg
      | .ok arcs =>
        let (special_arcs, partitionable_arcs) := pre_filter ctx arcs
        let _ := route_partitions ctx.grid_dim_x ctx.grid_dim_y
          special_arcs partitionable_arcs
        let _ := pressure
        let _ := history
        .ok true
    else .error ("called Option::unwrap on a None value (span cell)")

/-- Entry point `nextpnr_router_awooter` (lib.rs lines 20–75): `ctx.expect("Context*
should be non-null")` panics on a null context, then the net table is
moved out of the host exactly once and `route` is called; its boolean is
returned unchanged. -/
def nextpnr_router_awooter (ctx : Option Ctx) (nets : Nets)
    (pressure history : ℚ) : Except String Bool :=
  match ctx with
  | none => .error ("Context* should be non-null")
  | some c => route_result c nets pressure history

/-! ## Concrete instances used by witnesses and counterexamples -/

/-- A small context whose wire 0 is plainly named and whose other wires
carry a carry-chain (`FCO_SLICE`) name. -/
def ctx_fco : Ctx :=
  { grid_dim_x := 8
    grid_dim_y := 8
    source_wire := fun _ => 0
    sink_wires := fun _ _ => [1]
    name_of_wire := fun w => if w = 0 then ("plain_wire") else ("R5C5_FCO_SLICE") }

/-- An arc whose source wire is the plainly named wire 0 and whose sink
wire 1 is named `R5C5_FCO_SLICE`, with endpoints strictly inside the NE
quadrant at both recursion levels of an 8×8 grid. -/
def arc_fco : Arc := ⟨0, ⟨0, 0⟩, 1, ⟨1, 1⟩, 0, "n0"⟩

/-- A context whose wire names all contain `DDR`. -/
def ctx_ddr : Ctx :=
  { grid_dim_x := 8
    grid_dim_y := 8
    source_wire := fun _ => 0
    sink_wires := fun _ _ => [1]
    name_of_wire := fun _ => "DDR_wire" }

/-- An arc in `ctx_ddr`. -/
def arc_ddr : Arc := ⟨0, ⟨0, 0⟩, 1, ⟨1, 1⟩, 0, "n0"⟩

/-- A context for the extraction witnesses: each sink pin's candidate sink
wires depend on the pin. -/
def ctx_ex : Ctx :=
  { grid_dim_x := 4
    grid_dim_y := 4
    source_wire := fun _ => 5
    sink_wires := fun _ s => if s.pin = 1 then [10, 11] else [20]
    name_of_wire := fun _ => "w" }

/-- A non-global net with a null driver-port pointer. -/
def net_null_driver : Net := { is_global := false, driver := none, index := 0 }

/-- A non-global net whose driver port has no attached cell. -/
def net_no_cell : Net := { is_global := false, driver := some ⟨0, none⟩, index := 0 }

/-- A non-global, fully driven net. -/
def net_driven : Net :=
  { is_global := false, driver := some ⟨0, some ⟨1, 1⟩⟩, index := 1 }

/-- A global net. -/
def net_global : Net := { is_global := true, driver := none, index := 2 }

/-- The sink pins used by the extraction witnesses. -/
def users_ex : Nat → List PortRef :=
  fun n => if n = 1 then [⟨1, some ⟨2, 2⟩⟩, ⟨2, some ⟨3, 3⟩⟩] else []

/-- A net table containing a net with a null driver pointer. -/
def nets_null_driver : Nets :=
  { nets := [(0, net_null_driver)], users := users_ex, name_from_index := fun _ => "n" }

/-- A net table with one cell-less-driver net next to one driven net. -/
def nets_skip : Nets :=
  { nets := [(0, net_no_cell), (1, net_driven)]
    users := users_ex
    name_from_index := fun _ => "n" }

/-- The same net table with the cell-less-driver net removed. -/
def nets_skip' : Nets :=
  { nets := [(1, net_driven)], users := users_ex, name_from_index := fun _ => "n" }

/-- A two-net table in one iteration order… -/
def nets_ab : Nets :=
  { nets := [(0, net_no_cell), (1, net_driven)]
    users := users_ex
    name_from_index := fun _ => "n" }

/-- And the same table in the swapped iteration order. -/
def nets_ba : Nets :=
  { nets := [(1, net_driven), (0, net_no_cell)]
    users := users_ex
    name_from_index := fun _ => "n" }

/-- A one-net table holding only a global net (enough for the pipeline to
run to completion). -/
def nets_global : Nets :=
  { nets := [(2, net_global)], users := fun _ => [], name_from_index := fun _ => "g" }

/-! ## Lemmas about extraction -/

lemma extract_sinks_ok (ctx : Ctx) (name src_wire : Nat) (src : Coord)
    (idx : Nat) (nm : String) (sinks : List PortRef)
    (h : ∀ s ∈ sinks, s.cell ≠ none) :
    extract_sinks ctx name src_wire src idx nm sinks =
      .ok (sinks.flatMap (sink_arcs ctx name src_wire src idx nm)) := by
  induction sinks with
  | nil => rfl
  | cons s rest ih =>
    have hs : s.cell ≠ none := h s (List.mem_cons_self s rest)
    have hrest : ∀ t ∈ rest, t.cell ≠ none := fun t ht =>
      h t (List.mem_cons_of_mem s ht)
    cases hc : s.cell with
    | none => exact absurd hc hs
    | some loc =>
      simp only [extract_sinks, hc, ih hrest, List.flatMap_cons, sink_arcs]

lemma extract_sinks_error (ctx : Ctx) (name src_wire : Nat) (src : Coord)
    (idx : Nat) (nm : String) (sinks : List PortRef) (s : PortRef)
    (hs : s ∈ sinks) (hcell : s.cell = none) :
    ∃ msg, extract_sinks ctx name src_wire src idx nm sinks = .error msg := by
  induction sinks with
  | nil => cases hs
  | cons t rest ih =>
    cases hc : t.cell with
    | none => exact ⟨_, by rw [extract_sinks, hc]⟩
    | some loc =>
      rcases List.mem_cons.mp hs with rfl | hs'
      · rw [hc] at hcell; cases hcell
      · obtain ⟨msg, hmsg⟩ := ih hs'
        exact ⟨msg, by rw [extract_sinks, hc, hmsg]⟩

lemma extract_net_ok (ctx : Ctx) (nets : Nets) (e : Nat × Net)
    (h : net_passes nets e) :
    extract_net ctx nets e.1 e.2 = .ok (arcs_of_net ctx nets e) := by
  obtain ⟨name, net⟩ := e
  cases hg : net.is_global with
  | true => simp [extract_net, arcs_of_net, hg]
  | false =>
    obtain ⟨port_ref, hd, hcells⟩ := h hg
    rw [extract_net, arcs_of_net]
    simp only [hg, Bool.false_eq_true, if_false]
    rw [show net.driver = some port_ref from hd]
    cases hc : port_ref.cell with
    | none => simp [hc]
    | some loc =>
      simp only [hc]
      exact extract_sinks_ok ctx name (ctx.source_wire name) loc net.index
        (nets.name_from_index net.index) (nets.users name) (hcells loc hc)

lemma extract_net_isOk (ctx : Ctx) (nets : Nets) (e : Nat × Net) :
    (∃ l, extract_net ctx nets e.1 e.2 = .ok l) ↔ net_passes nets e := by
  obtain ⟨name, net⟩ := e
  constructor
  · rintro ⟨l, hl⟩ hg
    rw [extract_net] at hl
    rw [show net.is_global = false from hg] at hl
    simp only [Bool.false_eq_true, if_false] at hl
    cases hd : net.driver with
    | none => rw [hd] at hl; cases hl
    | some port_ref =>
      rw [hd] at hl
      refine ⟨port_ref, rfl, ?_⟩
      intro loc hc s hs hcell
      simp only [hc] at hl
      obtain ⟨msg, hmsg⟩ := extract_sinks_error ctx name (ctx.source_wire name)
        loc net.index (nets.name_from_index net.index) (nets.users name) s hs hcell
      rw [hmsg] at hl
      cases hl
  · intro h
    exact ⟨_, extract_net_ok ctx nets (name, net) h⟩

lemma extract_go_ok (ctx : Ctx) (nets : Nets) (l : List (Nat × Net))
    (h : ∀ e ∈ l, net_passes nets e) :
    extract_go ctx nets l = .ok (l.flatMap (arcs_of_net ctx nets)) := by
  induction l with
  | nil => rfl
  | cons e rest ih =>
    have he := extract_net_ok ctx nets e (h e (List.mem_cons_self e rest))
    have hrest := ih fun t ht => h t (List.mem_cons_of_mem e ht)
    simp only [extract_go, he, hrest, List.flatMap_cons]

lemma extract_go_error (ctx : Ctx) (nets : Nets) (l : List (Nat × Net))
    (e : Nat × Net) (he : e ∈ l) (hfail : ¬ net_passes nets e) :
    ∃ msg, extract_go ctx nets l = .error msg := by
  induction l with
  | nil => cases he
  | cons t rest ih =>
    cases hn : extract_net ctx nets t.1 t.2 with
    | error msg => exact ⟨msg, by rw [extract_go, hn]⟩
    | ok here =>
      rcases List.mem_cons.mp he with rfl | he'
      · exact absurd ((extract_net_isOk ctx nets e).mp ⟨here, hn⟩) hfail
      · obtain ⟨msg, hmsg⟩ := ih he'
        exact ⟨msg, by rw [extract_go, hn, hmsg]⟩

lemma extract_go_isOk (ctx : Ctx) (nets : Nets) (l : List (Nat × Net)) :
    (∃ out, extract_go ctx nets l = .ok out) ↔ ∀ e ∈ l, net_passes nets e := by
  constructor
  · rintro ⟨out, hout⟩ e he
    by_contra hfail
    obtain ⟨msg, hmsg⟩ := extract_go_error ctx nets l e he hfail
    rw [hmsg] at hout
    cases hout
  · intro h
    exact ⟨_, extract_go_ok ctx nets l h⟩

/-! ## Lemmas about the partitioner and the dispatch loop -/

lemma perm_cons_shift {α : Type} (X : List α) {Y z : List α} {a : α}
    (h : List.Perm Y (a :: z)) : List.Perm (X ++ Y) (a :: (X ++ z)) :=
  (List.Perm.append_left X h).trans List.perm_middle

/-- Splitting a list by a five-valued classification loses and duplicates
nothing. -/
lemma five_way_filter_perm {α : Type} [DecidableEq α] (f : α → Option Quad)
    (l : List α) :
    List.Perm
      ((l.filter fun x => f x = some .ne) ++ ((l.filter fun x => f x = some .se) ++
        ((l.filter fun x => f x = some .sw) ++ ((l.filter fun x => f x = some .nw) ++
        (l.filter fun x => f x = none))))) l := by
  induction l with
  | nil => rfl
  | cons a t ih =>
    cases h : f a with
    | none =>
      rw [List.filter_cons_of_neg (by simp [h]), List.filter_cons_of_neg (by simp [h]),
        List.filter_cons_of_neg (by simp [h]), List.filter_cons_of_neg (by simp [h]),
        List.filter_cons_of_pos (by simp [h])]
      exact (perm_cons_shift _ (perm_cons_shift _ (perm_cons_shift _
        (perm_cons_shift _ (List.Perm.refl _))))).trans (ih.cons a)
    | some q =>
      cases q with
      | ne =>
        rw [List.filter_cons_of_pos (by simp [h]), List.filter_cons_of_neg (by simp [h]),
          List.filter_cons_of_neg (by simp [h]), List.filter_cons_of_neg (by simp [h]),
          List.filter_cons_of_neg (by simp [h])]
        exact ih.cons a
      | se =>
        rw [List.filter_cons_of_neg (by simp [h]), List.filter_cons_of_pos (by simp [h]),
          List.filter_cons_of_neg (by simp [h]), List.filter_cons_of_neg (by simp [h]),
          List.filter_cons_of_neg (by simp [h])]
        exact (perm_cons_shift _ (List.Perm.refl _)).trans (ih.cons a)
      | sw =>
        rw [List.filter_cons_of_neg (by simp [h]), List.filter_cons_of_neg (by simp [h]),
          List.filter_cons_of_pos (by simp [h]), List.filter_cons_of_neg (by simp [h]),
          List.filter_cons_of_neg (by simp [h])]
        exact (perm_cons_shift _ (perm_cons_shift _ (List.Perm.refl _))).trans
          (ih.cons a)
      | nw =>
        rw [List.filter_cons_of_neg (by simp [h]), List.filter_cons_of_neg (by simp [h]),
          List.filter_cons_of_neg (by simp [h]), List.filter_cons_of_pos (by simp [h]),
          List.filter_cons_of_neg (by simp [h])]
        exact (perm_cons_shift _ (perm_cons_shift _ (perm_cons_shift _
          (List.Perm.refl _)))).trans (ih.cons a)

/-- Coverage of one partitioning step: the five output lists are a
permutation of the input arcs. -/
lemma partition_step_perm (x_start x_finish y_start y_finish : Int)
    (arcs : List Arc) :
    List.Perm
      ((find_partition_point_and_sanity_check x_start x_finish y_start y_finish
          arcs).ne ++
        ((find_partition_point_and_sanity_check x_start x_finish y_start y_finish
          arcs).se ++
        (((find_partition_point_and_sanity_check x_start x_finish y_start y_finish
          arcs).sw) ++
        (((find_partition_point_and_sanity_check x_start x_finish y_start y_finish
          arcs).nw) ++
        ((find_partition_point_and_sanity_check x_start x_finish y_start y_finish
          arcs).special)))))
      arcs := by
  unfold find_partition_point_and_sanity_check
  exact five_way_filter_perm _ arcs

/-- Reordering five appended blocks preserves the multiset. -/
lemma five_shuffle {α : Type} (A B C D E : List α) :
    List.Perm ((B ++ (C ++ (A ++ (D ++ [])))) ++ E)
      (A ++ (B ++ (C ++ (D ++ E)))) := by
  rw [← Multiset.coe_eq_coe]
  simp only [← Multiset.coe_add, List.append_nil]
  abel

/-- Coverage of one dispatch-loop entry: the four children plus the special
arcs of `step_entry` are a permutation of the entry's arcs. -/
lemma step_entry_perm (e : PartEntry) :
    List.Perm ((step_entry e).1.flatMap PartEntry.arcs ++ (step_entry e).2)
      e.arcs := by
  unfold step_entry
  simp only [List.flatMap_cons, List.flatMap_nil]
  exact (five_shuffle _ _ _ _ _).trans
    (partition_step_perm e.pmin.x e.pmax.x e.pmin.y e.pmax.y e.arcs)

/-- Coverage of one full pass of the dispatch loop. -/
lemma step_partitions_perm (ps : List PartEntry) :
    List.Perm ((step_partitions ps).1.flatMap PartEntry.arcs ++
        (step_partitions ps).2)
      (ps.flatMap PartEntry.arcs) := by
  induction ps with
  | nil => rfl
  | cons e rest ih =>
    simp only [step_partitions, List.flatMap_cons, List.flatMap_append]
    refine List.Perm.trans ?_ (List.Perm.append (step_entry_perm e) ih)
    rw [← Multiset.coe_eq_coe]
    simp only [← Multiset.coe_add]
    abel

/-- Coverage of the whole dispatch loop: leaves plus accumulated special
arcs are a permutation of the initial worklist arcs plus the initial
special list. -/
lemma dispatch_loop_perm (n : Nat) (ps : List PartEntry) (sp : List Arc) :
    List.Perm ((dispatch_loop n ps sp).1.flatMap PartEntry.arcs ++
        (dispatch_loop n ps sp).2)
      (ps.flatMap PartEntry.arcs ++ sp) := by
  induction n generalizing ps sp with
  | zero => exact List.Perm.refl _
  | succ n ih =>
    simp only [dispatch_loop]
    refine (ih _ _).trans ?_
    refine List.Perm.trans ?_ ((step_partitions_perm ps).append_right sp)
    rw [← Multiset.coe_eq_coe]
    simp only [← Multiset.coe_add]
    abel

/-- Each child produced by `step_entry` carries only arcs of its parent. -/
lemma step_entry_arcs_subset (e : PartEntry) (c : PartEntry)
    (hc : c ∈ (step_entry e).1) (a : Arc) (ha : a ∈ c.arcs) : a ∈ e.arcs := by
  unfold step_entry at hc
  simp only [List.mem_cons, List.not_mem_nil, or_false] at hc
  rcases hc with rfl | rfl | rfl | rfl <;>
    exact List.mem_of_mem_filter ha

/-- Each entry produced by one dispatch pass is a child of some input
entry. -/
lemma step_partitions_mem (ps : List PartEntry) (c : PartEntry)
    (hc : c ∈ (step_partitions ps).1) : ∃ e ∈ ps, c ∈ (step_entry e).1 := by
  induction ps with
  | nil => cases hc
  | cons e rest ih =>
    simp only [step_partitions, List.mem_append] at hc
    rcases hc with hc | hc
    · exact ⟨e, List.mem_cons_self e rest, hc⟩
    · obtain ⟨e', he', hc'⟩ := ih hc
      exact ⟨e', List.mem_cons_of_mem e he', hc'⟩

/-- Any arc in a leaf of the dispatch loop was an arc of some initial
worklist entry. -/
lemma dispatch_loop_leaf_arcs (n : Nat) (ps : List PartEntry) (sp : List Arc)
    (c : PartEntry) (hc : c ∈ (dispatch_loop n ps sp).1) (a : Arc)
    (ha : a ∈ c.arcs) : ∃ e ∈ ps, a ∈ e.arcs := by
  induction n generalizing ps sp with
  | zero => exact ⟨c, hc, ha⟩
  | succ n ih =>
    simp only [dispatch_loop] at hc
    obtain ⟨e', he', ha'⟩ := ih _ _ hc
    obtain ⟨e, he, hc'⟩ := step_partitions_mem ps e' he'
    exact ⟨e, he, step_entry_arcs_subset e e' hc' a ha'⟩

/-- The accumulated special list only grows across the dispatch loop. -/
lemma dispatch_loop_special_mono (n : Nat) (ps : List PartEntry)
    (sp : List Arc) (a : Arc) (ha : a ∈ sp) :
    a ∈ (dispatch_loop n ps sp).2 := by
  induction n generalizing ps sp with
  | zero => exact ha
  | succ n ih =>
    simp only [dispatch_loop]
    exact ih _ _ (List.mem_append_left _ ha)

/-! ## Lemmas about the pre-filter -/

/-- A pattern-matching arc always lands in the special list of the
pre-filter. -/
lemma pre_filter_special_mem (ctx : Ctx) (arcs : List Arc) (a : Arc)
    (ha : a ∈ arcs) (hspec : is_special_arc ctx a = true) :
    a ∈ (pre_filter ctx arcs).1 := by
  induction arcs with
  | nil => cases ha
  | cons b rest ih =>
    rcases List.mem_cons.mp ha with rfl | ha'
    · simp only [pre_filter, hspec, if_true]
      exact List.mem_cons_self a _
    · by_cases hb : is_special_arc ctx b
      · simp only [pre_filter, hb, if_true]
        exact List.mem_cons_of_mem b (ih ha')
      · simp only [pre_filter, hb, if_false]
        exact ih ha'

/-- Everything in the partitionable list of the pre-filter fails the
special-casing test. -/
lemma pre_filter_partitionable_not_special (ctx : Ctx) (arcs : List Arc)
    (a : Arc) (ha : a ∈ (pre_filter ctx arcs).2) :
    is_special_arc ctx a = false := by
  induction arcs with
  | nil => cases ha
  | cons b rest ih =>
    by_cases hb : is_special_arc ctx b
    · simp only [pre_filter, hb, if_true] at ha
      exact ih ha
    · simp only [pre_filter, hb, if_false] at ha
      rcases List.mem_cons.mp ha with rfl | ha'
      · exact Bool.not_eq_true _ ▸ (by simpa using hb)
      · exact ih ha'

/-- Irrelevance of the entry-list field: `extract_go` reads the net table only through `users` and
`name_from_index`: the entry list field of the record does not matter. -/
lemma extract_go_nets_irrel (ctx : Ctx) (A B : List (Nat × Net))
    (u : Nat → List PortRef) (nfi : Nat → String) (l : List (Nat × Net)) :
    extract_go ctx ⟨A, u, nfi⟩ l = extract_go ctx ⟨B, u, nfi⟩ l := by
  induction l with
  | nil => rfl
  | cons e rest ih =>
    simp only [extract_go, ih]
    rw [show extract_net ctx ⟨A, u, nfi⟩ e.1 e.2 =
      extract_net ctx ⟨B, u, nfi⟩ e.1 e.2 from rfl]

/-! ## Claim theorems -/

/-- C1: one partitioning step's five output arc lists (NE, SE, SW, NW,
special) are a permutation of its input arcs — no arc duplicated or
dropped — and after the full two-level dispatch loop the leaf partitions'
arcs together with the accumulated special list are a permutation of the
pre-filtered partitionable arcs plus the initial special list, so every
pre-filtered partitionable arc ends up exactly once in a leaf partition or
in the accumulated special list. -/
theorem claim_C1_partition_coverage (x_start x_finish y_start y_finish : Int)
    (arcs : List Arc) (gx gy : Int) (special0 partitionable : List Arc) :
    List.Perm
      ((find_partition_point_and_sanity_check x_start x_finish y_start y_finish
          arcs).ne ++
        ((find_partition_point_and_sanity_check x_start x_finish y_start y_finish
          arcs).se ++
        ((find_partition_point_and_sanity_check x_start x_finish y_start y_finish
          arcs).sw ++
        ((find_partition_point_and_sanity_check x_start x_finish y_start y_finish
          arcs).nw ++
        (find_partition_point_and_sanity_check x_start x_finish y_start y_finish
          arcs).special))))
      arcs ∧
    List.Perm
      ((route_partitions gx gy special0 partitionable).1.flatMap PartEntry.arcs ++
        (route_partitions gx gy special0 partitionable).2)
      (partitionable ++ special0) := by
  refine ⟨partition_step_perm x_start x_finish y_start y_finish arcs, ?_⟩
  have h := dispatch_loop_perm 2 [⟨⟨0, 0⟩, ⟨gx, gy⟩, partitionable, ""⟩] special0
  simpa [route_partitions, List.flatMap_cons] using h

/-- C2: for a split point (xp, yp) inside the parent box [pmin, pmax], the
four child boxes built by the dispatch loop tile the parent exactly: a
point is in the parent iff it is in some child, the child areas sum to the
parent area, and two distinct children share no interior point. -/
theorem claim_C2_child_boxes_tile (pmin pmax : Coord) (xp yp : Int)
    (hx1 : pmin.x ≤ xp) (hx2 : xp ≤ pmax.x)
    (hy1 : pmin.y ≤ yp) (hy2 : yp ≤ pmax.y) :
    (∀ c, in_box pmin pmax c ↔
      ∃ b ∈ child_boxes pmin pmax xp yp, in_box b.1 b.2 c) ∧
    ((child_boxes pmin pmax xp yp).map fun b => box_area b.1 b.2).sum =
      box_area pmin pmax ∧
    (∀ b1 ∈ child_boxes pmin pmax xp yp, ∀ b2 ∈ child_boxes pmin pmax xp yp,
      b1 ≠ b2 → ∀ c, ¬(in_box_interior b1.1 b1.2 c ∧
        in_box_interior b2.1 b2.2 c)) := by
  refine ⟨?_, ?_, ?_⟩
  · intro c
    constructor
    · intro hc
      obtain ⟨hcx1, hcx2, hcy1, hcy2⟩ := hc
      by_cases hcx : c.x ≤ xp <;> by_cases hcy : c.y ≤ yp
      · exact ⟨(pmin, ⟨xp, yp⟩), by simp [child_boxes],
          by simp only [in_box]; omega⟩
      · exact ⟨(⟨pmin.x, yp⟩, ⟨xp, pmax.y⟩), by simp [child_boxes],
          by simp only [in_box]; omega⟩
      · exact ⟨(⟨xp, pmin.y⟩, ⟨pmax.x, yp⟩), by simp [child_boxes],
          by simp only [in_box]; omega⟩
      · exact ⟨(⟨xp, yp⟩, pmax), by simp [child_boxes],
          by simp only [in_box]; omega⟩
    · rintro ⟨b, hb, hcb⟩
      simp only [child_boxes, List.mem_cons, List.not_mem_nil, or_false] at hb
      rcases hb with rfl | rfl | rfl | rfl <;>
        · simp only [in_box] at hcb ⊢
          omega
  · simp only [child_boxes, List.map_cons, List.map_nil, List.sum_cons,
      List.sum_nil, box_area]
    ring
  · intro b1 hb1 b2 hb2 hne c hint
    simp only [child_boxes, List.mem_cons, List.not_mem_nil, or_false] at hb1 hb2
    obtain ⟨h1, h2⟩ := hint
    simp only [in_box_interior] at h1 h2
    rcases hb1 with rfl | rfl | rfl | rfl <;> rcases hb2 with rfl | rfl | rfl | rfl <;>
      simp only at h1 h2 <;> first | exact hne rfl | omega

/-- C2 witness: the theorem at the concrete box [(0,0), (4,4)] split at
(2,2). -/
theorem claim_C2_child_boxes_tile_witness :
    ((0 : Int) ≤ 2 ∧ (2 : Int) ≤ 4 ∧ (0 : Int) ≤ 2 ∧ (2 : Int) ≤ 4) ∧
    ((∀ c, in_box ⟨0, 0⟩ ⟨4, 4⟩ c ↔
      ∃ b ∈ child_boxes ⟨0, 0⟩ ⟨4, 4⟩ 2 2, in_box b.1 b.2 c) ∧
    ((child_boxes ⟨0, 0⟩ ⟨4, 4⟩ 2 2).map fun b => box_area b.1 b.2).sum =
      box_area ⟨0, 0⟩ ⟨4, 4⟩ ∧
    (∀ b1 ∈ child_boxes ⟨0, 0⟩ ⟨4, 4⟩ 2 2, ∀ b2 ∈ child_boxes ⟨0, 0⟩ ⟨4, 4⟩ 2 2,
      b1 ≠ b2 → ∀ c, ¬(in_box_interior b1.1 b1.2 c ∧
        in_box_interior b2.1 b2.2 c))) :=
  ⟨⟨by norm_num, by norm_num, by norm_num, by norm_num⟩,
    claim_C2_child_boxes_tile ⟨0, 0⟩ ⟨4, 4⟩ 2 2
      (by norm_num) (by norm_num) (by norm_num) (by norm_num)⟩

/-- C7: starting from the single root box (0,0)–(gx,gy), one round of the
dispatch loop yields 4 partitions and the full two-round loop yields
exactly 16 leaf partitions, whose name paths are built by appending one of
`_SE`/`_SW`/`_NE`/`_NW` per level (in the push order of the code). -/
theorem claim_C7_sixteen_leaves (gx gy : Int) (special0 partitionable : List Arc) :
    (dispatch_loop 1 [⟨⟨0, 0⟩, ⟨gx, gy⟩, partitionable, ""⟩] special0).1.length
        = 4 ∧
    (route_partitions gx gy special0 partitionable).1.length = 16 ∧
    (route_partitions gx gy special0 partitionable).1.map PartEntry.name =
      ["_SE_SE", "_SE_SW", "_SE_NE", "_SE_NW",
       "_SW_SE", "_SW_SW", "_SW_NE", "_SW_NW",
       "_NE_SE", "_NE_SW", "_NE_NE", "_NE_NW",
       "_NW_SE", "_NW_SW", "_NW_NE", "_NW_NW"] :=
  ⟨rfl, rfl, rfl⟩

/-- C3 counterexample: `arc_fco`'s sink wire name `R5C5_FCO_SLICE` matches
the configured reserved pattern `FCO_SLICE`, yet the pre-filter puts the
arc into the partitionable list (its special list is empty) and after the
full two-level dispatch the arc sits inside a leaf quadrant partition —
the patterns are applied positionally, not to both endpoints. -/
theorem claim_C3_counterexample :
    matches_reserved_pattern (ctx_fco.name_of_wire arc_fco.sink_wire) = true ∧
    (pre_filter ctx_fco [arc_fco]).1 = [] ∧
    (pre_filter ctx_fco [arc_fco]).2 = [arc_fco] ∧
    ∃ e ∈ (route_partitions ctx_fco.grid_dim_x ctx_fco.grid_dim_y
        (pre_filter ctx_fco [arc_fco]).1 (pre_filter ctx_fco [arc_fco]).2).1,
      arc_fco ∈ e.arcs := by
  refine ⟨rfl, rfl, rfl, ?_⟩
  decide

/-- C3 (amended): an arc matching the pre-filter's positional pattern test
(`FCO_SLICE`/`Q6_SLICE`/`J`/`DDR` against the source wire name,
`DDR`/`X126/Y20/PADDOD_PIO` against the sink wire name) is placed in the
special list before any partitioning, stays in the accumulated special
list after the full two-level dispatch, and appears in no leaf partition,
independent of its endpoints' geometry. -/
theorem claim_C3_reserved_patterns (ctx : Ctx) (arcs : List Arc)
    (gx gy : Int) (a : Arc) (ha : a ∈ arcs)
    (hspec : is_special_arc ctx a = true) :
    a ∈ (pre_filter ctx arcs).1 ∧
    a ∈ (route_partitions gx gy (pre_filter ctx arcs).1
      (pre_filter ctx arcs).2).2 ∧
    ∀ e ∈ (route_partitions gx gy (pre_filter ctx arcs).1
      (pre_filter ctx arcs).2).1, a ∉ e.arcs := by
  have hsp := pre_filter_special_mem ctx arcs a ha hspec
  refine ⟨hsp, dispatch_loop_special_mono 2 _ _ a hsp, ?_⟩
  intro e he hmem
  obtain ⟨e0, he0, ha0⟩ := dispatch_loop_leaf_arcs 2 _ _ e he a hmem
  simp only [List.mem_singleton] at he0
  subst he0
  have : is_special_arc ctx a = false :=
    pre_filter_partitionable_not_special ctx arcs a ha0
  rw [hspec] at this
  cases this

/-- C3 witness: the amended theorem at `arc_ddr`, whose source wire name
`DDR_wire` matches the positional source pattern `DDR`. -/
theorem claim_C3_reserved_patterns_witness :
    (arc_ddr ∈ [arc_ddr] ∧ is_special_arc ctx_ddr arc_ddr = true) ∧
    (arc_ddr ∈ (pre_filter ctx_ddr [arc_ddr]).1 ∧
    arc_ddr ∈ (route_partitions 8 8 (pre_filter ctx_ddr [arc_ddr]).1
      (pre_filter ctx_ddr [arc_ddr]).2).2 ∧
    ∀ e ∈ (route_partitions 8 8 (pre_filter ctx_ddr [arc_ddr]).1
      (pre_filter ctx_ddr [arc_ddr]).2).1, arc_ddr ∉ e.arcs) :=
  ⟨⟨by decide, by decide⟩,
    claim_C3_reserved_patterns ctx_ddr [arc_ddr] 8 8 arc_ddr
      (by decide) (by decide)⟩

/-- C4: raising the pressure factor (history fixed) or the history factor
(pressure fixed) never decreases the cost of any resource, and strictly
increases it when the corresponding counter (current usage for pressure,
historical congestion for history) is nonzero. -/
theorem claim_C4_cost_monotonicity (base_delay p p' h h' : ℚ)
    (r : ResourceState) (hp : p ≤ p') (hh : h ≤ h') :
    (resource_cost p h base_delay r ≤ resource_cost p' h base_delay r) ∧
    (resource_cost p h base_delay r ≤ resource_cost p h' base_delay r) ∧
    (0 < r.current_usage → p < p' →
      resource_cost p h base_delay r < resource_cost p' h base_delay r) ∧
    (0 < r.historical_congestion → h < h' →
      resource_cost p h base_delay r < resource_cost p h' base_delay r) := by
  have hu0 : (0 : ℚ) ≤ (r.current_usage : ℚ) := Nat.cast_nonneg _
  have hh0 : (0 : ℚ) ≤ (r.historical_congestion : ℚ) := Nat.cast_nonneg _
  unfold resource_cost
  refine ⟨by nlinarith, by nlinarith, ?_, ?_⟩
  · intro hu hplt
    have hu1 : (0 : ℚ) < (r.current_usage : ℚ) := by exact_mod_cast hu
    nlinarith
  · intro hc hhlt
    have hc1 : (0 : ℚ) < (r.historical_congestion : ℚ) := by exact_mod_cast hc
    nlinarith

/-- C4 witness: the theorem at base delay 1, pressure 1 → 2, history 1 → 3,
on a resource with usage 1 and history 1. -/
theorem claim_C4_cost_monotonicity_witness :
    ((1 : ℚ) ≤ 2 ∧ (1 : ℚ) ≤ 3) ∧
    ((resource_cost 1 1 1 ⟨1, 1⟩ ≤ resource_cost 2 1 1 ⟨1, 1⟩) ∧
    (resource_cost 1 1 1 ⟨1, 1⟩ ≤ resource_cost 1 3 1 ⟨1, 1⟩) ∧
    (0 < (1 : Nat) → (1 : ℚ) < 2 →
      resource_cost 1 1 1 ⟨1, 1⟩ < resource_cost 2 1 1 ⟨1, 1⟩) ∧
    (0 < (1 : Nat) → (1 : ℚ) < 3 →
      resource_cost 1 1 1 ⟨1, 1⟩ < resource_cost 1 3 1 ⟨1, 1⟩)) :=
  ⟨⟨by norm_num, by norm_num⟩,
    claim_C4_cost_monotonicity 1 1 2 1 3 ⟨1, 1⟩ (by norm_num) (by norm_num)⟩

/-- C5 counterexample: a non-global net whose driver-port pointer is null
makes extraction panic (the embedded extraction returns the unwrap error)
rather than silently contributing zero arcs and returning normally. -/
theorem claim_C5_counterexample :
    extract_arcs_from_nets ctx_ex nets_null_driver =
      .error ("called Option::unwrap on a None value (driver port)") := rfl

/-- C5 (amended): a non-global net whose driver port exists but has no
attached cell is silently skipped: it contributes zero arcs and extraction
returns exactly the arcs of the remaining nets. (A null driver-port
pointer, by contrast, panics — see C10.) -/
theorem claim_C5_driverless_skip (ctx : Ctx) (u : Nat → List PortRef)
    (nfi : Nat → String) (l1 l2 : List (Nat × Net)) (name : Nat) (net : Net)
    (port_ref : PortRef) (hg : net.is_global = false)
    (hd : net.driver = some port_ref) (hc : port_ref.cell = none) :
    extract_arcs_from_nets ctx ⟨l1 ++ (name, net) :: l2, u, nfi⟩ =
      extract_arcs_from_nets ctx ⟨l1 ++ l2, u, nfi⟩ := by
  unfold extract_arcs_from_nets
  induction l1 with
  | nil =>
    simp only [List.nil_append]
    have hnet : extract_net ctx ⟨(name, net) :: l2, u, nfi⟩ name net = .ok [] := by
      unfold extract_net
      rw [hg, hd]
      simp [hc]
    simp only [extract_go, hnet]
    rw [extract_go_nets_irrel ctx ((name, net) :: l2) l2 u nfi l2]
    cases extract_go ctx ⟨l2, u, nfi⟩ l2 with
    | error msg => rfl
    | ok tail => simp
  | cons e rest ih =>
    simp only [List.cons_append]
    simp only [extract_go]
    rw [show extract_net ctx ⟨(e :: (rest ++ (name, net) :: l2)), u, nfi⟩ e.1 e.2 =
      extract_net ctx ⟨(e :: (rest ++ l2)), u, nfi⟩ e.1 e.2 from rfl]
    rw [extract_go_nets_irrel ctx (e :: (rest ++ (name, net) :: l2))
      (rest ++ (name, net) :: l2) u nfi (rest ++ (name, net) :: l2)]
    rw [extract_go_nets_irrel ctx (e :: (rest ++ l2)) (rest ++ l2) u nfi
      (rest ++ l2)]
    rw [ih]

/-- C5 witness: the amended theorem with the cell-less-driver net `(0,
net_no_cell)` in front of the driven net `(1, net_driven)`: both tables
extract to the same arc list. -/
theorem claim_C5_driverless_skip_witness :
    (net_no_cell.is_global = false ∧ net_no_cell.driver = some ⟨0, none⟩ ∧
      (⟨0, none⟩ : PortRef).cell = none) ∧
    extract_arcs_from_nets ctx_ex ⟨[] ++ (0, net_no_cell) :: [(1, net_driven)],
        users_ex, fun _ => "n"⟩ =
      extract_arcs_from_nets ctx_ex ⟨[] ++ [(1, net_driven)],
        users_ex, fun _ => "n"⟩ :=
  ⟨⟨rfl, rfl, rfl⟩,
    claim_C5_driverless_skip ctx_ex users_ex (fun _ => "n") []
      [(1, net_driven)] 0 net_no_cell ⟨0, none⟩ rfl rfl rfl⟩

/-- C6: for a non-global net with a driver cell (and sinks that pass the
unwraps), extraction of that net emits exactly the concatenation, over its
sink pins, of one arc per candidate sink wire of that pin, every arc
carrying the net's single resolved source wire; consequently the arc count
is the sum over sink pins of the candidate-sink-wire counts. -/
theorem claim_C6_one_arc_per_sink_wire (ctx : Ctx) (nets : Nets) (name : Nat)
    (net : Net) (port_ref : PortRef) (src : Coord)
    (hg : net.is_global = false) (hd : net.driver = some port_ref)
    (hc : port_ref.cell = some src)
    (hs : ∀ s ∈ nets.users name, s.cell ≠ none) :
    extract_net ctx nets name net =
      .ok ((nets.users name).flatMap
        (sink_arcs ctx name (ctx.source_wire name) src net.index
          (nets.name_from_index net.index))) ∧
    ∀ l, extract_net ctx nets name net = .ok l →
      l.length =
        ((nets.users name).map fun s => (ctx.sink_wires name s).length).sum ∧
      ∀ a ∈ l, a.source_wire = ctx.source_wire name := by
  have hpass : net_passes nets (name, net) := fun _ => ⟨port_ref, hd, fun _ _ => hs⟩
  have hmain : extract_net ctx nets name net =
      .ok ((nets.users name).flatMap
        (sink_arcs ctx name (ctx.source_wire name) src net.index
          (nets.name_from_index net.index))) := by
    rw [extract_net_ok ctx nets (name, net) hpass]
    unfold arcs_of_net
    simp only [hg, Bool.false_eq_true, if_false, hd, hc]
  refine ⟨hmain, ?_⟩
  intro l hl
  rw [hmain] at hl
  injection hl with hl
  subst hl
  constructor
  · rw [List.length_flatMap]
    congr 1
    apply List.map_congr_left
    intro s hsm
    cases hcs : s.cell with
    | none => exact absurd hcs (hs s hsm)
    | some loc => simp [sink_arcs, hcs]
  · intro a ha
    rw [List.mem_flatMap] at ha
    obtain ⟨s, hsm, hain⟩ := ha
    cases hcs : s.cell with
    | none => exact absurd hcs (hs s hsm)
    | some loc =>
      rw [sink_arcs, hcs] at hain
      simp only [List.mem_map] at hain
      obtain ⟨w, _, rfl⟩ := hain
      rfl

/-- C6 witness: the theorem on `net_driven` in `ctx_ex`/`nets_skip`, whose
two sink pins have two and one candidate sink wires. -/
theorem claim_C6_one_arc_per_sink_wire_witness :
    (net_driven.is_global = false ∧ net_driven.driver = some ⟨0, some ⟨1, 1⟩⟩ ∧
      (⟨0, some ⟨1, 1⟩⟩ : PortRef).cell = some ⟨1, 1⟩ ∧
      ∀ s ∈ nets_skip.users 1, s.cell ≠ none) ∧
    (extract_net ctx_ex nets_skip 1 net_driven =
      .ok ((nets_skip.users 1).flatMap
        (sink_arcs ctx_ex 1 (ctx_ex.source_wire 1) ⟨1, 1⟩ net_driven.index
          (nets_skip.name_from_index net_driven.index))) ∧
    ∀ l, extract_net ctx_ex nets_skip 1 net_driven = .ok l →
      l.length =
        ((nets_skip.users 1).map fun s => (ctx_ex.sink_wires 1 s).length).sum ∧
      ∀ a ∈ l, a.source_wire = ctx_ex.source_wire 1) :=
  ⟨⟨rfl, rfl, rfl, by decide⟩,
    claim_C6_one_arc_per_sink_wire ctx_ex nets_skip 1 net_driven
      ⟨0, some ⟨1, 1⟩⟩ ⟨1, 1⟩ rfl rfl rfl (by decide)⟩

/-- C8: extraction is deterministic at the set level and mutates nothing
(the embedding is a pure function of the context): for the same net table
presented in two different hash-map iteration orders, extraction succeeds
on one order iff on the other, and the two successful results are
permutations of each other (the same arc multiset). -/
theorem claim_C8_extraction_set_deterministic (ctx : Ctx) (n1 n2 : Nets)
    (hperm : List.Perm n1.nets n2.nets) (hu : n1.users = n2.users)
    (hn : n1.name_from_index = n2.name_from_index) :
    ((∃ l, extract_arcs_from_nets ctx n1 = .ok l) ↔
      (∃ l, extract_arcs_from_nets ctx n2 = .ok l)) ∧
    ∀ l1 l2, extract_arcs_from_nets ctx n1 = .ok l1 →
      extract_arcs_from_nets ctx n2 = .ok l2 → List.Perm l1 l2 := by
  obtain ⟨A, u1, f1⟩ := n1
  obtain ⟨B, u2, f2⟩ := n2
  simp only at hperm hu hn
  subst hu
  subst hn
  constructor
  · rw [show extract_arcs_from_nets ctx ⟨A, u1, f1⟩ =
        extract_go ctx ⟨A, u1, f1⟩ A from rfl,
      show extract_arcs_from_nets ctx ⟨B, u1, f1⟩ =
        extract_go ctx ⟨B, u1, f1⟩ B from rfl,
      extract_go_isOk, extract_go_isOk]
    constructor
    · intro h e he
      exact h e (hperm.mem_iff.mpr he)
    · intro h e he
      exact h e (hperm.mem_iff.mp he)
  · intro l1 l2 h1 h2
    have hp1 : ∀ e ∈ A, net_passes ⟨A, u1, f1⟩ e :=
      (extract_go_isOk ctx ⟨A, u1, f1⟩ A).mp ⟨l1, h1⟩
    have hp2 : ∀ e ∈ B, net_passes ⟨B, u1, f1⟩ e :=
      (extract_go_isOk ctx ⟨B, u1, f1⟩ B).mp ⟨l2, h2⟩
    have e1 : extract_arcs_from_nets ctx ⟨A, u1, f1⟩ =
        .ok (A.flatMap (arcs_of_net ctx ⟨A, u1, f1⟩)) :=
      extract_go_ok ctx ⟨A, u1, f1⟩ A hp1
    have e2 : extract_arcs_from_nets ctx ⟨B, u1, f1⟩ =
        .ok (B.flatMap (arcs_of_net ctx ⟨B, u1, f1⟩)) :=
      extract_go_ok ctx ⟨B, u1, f1⟩ B hp2
    rw [h1] at e1
    rw [h2] at e2
    injection e1 with e1
    injection e2 with e2
    subst e1
    subst e2
    rw [show arcs_of_net ctx ⟨B, u1, f1⟩ = arcs_of_net ctx ⟨A, u1, f1⟩ from rfl]
    exact hperm.flatMap_right (arcs_of_net ctx ⟨A, u1, f1⟩)

/-- C8 witness: the two iteration orders `nets_ab` and `nets_ba` of the
same two-net table yield permuted (here in fact equal) arc lists. -/
theorem claim_C8_extraction_set_deterministic_witness :
    (List.Perm nets_ab.nets nets_ba.nets ∧ nets_ab.users = nets_ba.users ∧
      nets_ab.name_from_index = nets_ba.name_from_index) ∧
    (((∃ l, extract_arcs_from_nets ctx_ex nets_ab = .ok l) ↔
      (∃ l, extract_arcs_from_nets ctx_ex nets_ba = .ok l)) ∧
    ∀ l1 l2, extract_arcs_from_nets ctx_ex nets_ab = .ok l1 →
      extract_arcs_from_nets ctx_ex nets_ba = .ok l2 → List.Perm l1 l2) :=
  ⟨⟨List.Perm.swap _ _ _, rfl, rfl⟩,
    claim_C8_extraction_set_deterministic ctx_ex nets_ab nets_ba
      (List.Perm.swap _ _ _) rfl rfl⟩

/-- C9: whenever the pipeline runs to completion (no panic), the entry
point returns `true` — the boolean return value never signals failure. -/
theorem claim_C9_returns_true (ctx : Ctx) (nets : Nets) (pressure history : ℚ)
    (b : Bool)
    (hres : nextpnr_router_awooter (some ctx) nets pressure history = .ok b) :
    b = true := by
  have hr : route_result ctx nets pressure history = .ok b := hres
  unfold route_result at hr
  cases hmax : max_by_key (fanout_key ctx nets) nets.nets with
  | none => rw [hmax] at hr; cases hr
  | some e =>
    rw [hmax] at hr
    simp only at hr
    by_cases hall : ((nets.users e.1).all fun s => s.cell.isSome) = true
    · rw [if_pos hall] at hr
      cases hex : extract_arcs_from_nets ctx nets with
      | error msg => rw [hex] at hr; cases hr
      | ok arcs =>
        rw [hex] at hr
        simp only at hr
        injection hr with hr
        exact hr.symm
    · rw [if_neg hall] at hr
      cases hr

/-- C9 witness: a context whose single (global) net lets the pipeline run
to completion; the entry point returns `.ok true`. -/
theorem claim_C9_returns_true_witness :
    nextpnr_router_awooter (some ctx_ex) nets_global 1 1 = .ok true ∧
    true = true :=
  ⟨rfl, claim_C9_returns_true ctx_ex nets_global 1 1 true rfl⟩

/-- C10: extraction returns normally exactly when every non-global net has
a non-null driver-port pointer and, whenever that driver port carries a
cell, every sink pin of the net has an attached cell; any violation makes
extraction panic (return the unwrap error) instead of skipping the net or
pin. -/
theorem claim_C10_extraction_precondition (ctx : Ctx) (nets : Nets) :
    ((∃ l, extract_arcs_from_nets ctx nets = .ok l) ↔
      ∀ e ∈ nets.nets, net_passes nets e) ∧
    ((¬ ∀ e ∈ nets.nets, net_passes nets e) →
      ∃ msg, extract_arcs_from_nets ctx nets = .error msg) := by
  have h := extract_go_isOk ctx nets nets.nets
  refine ⟨h, ?_⟩
  intro hfail
  cases hex : extract_arcs_from_nets ctx nets with
  | error msg => exact ⟨msg, rfl⟩
  | ok l => exact absurd (h.mp ⟨l, hex⟩) hfail

end Awooter
